import Mathlib

/-!
Shallow embedding of the `getfiles` library (`src/getfiles/GetFiles.py`) and
proofs about its traversal, filtering and decoration pipeline.

Modelling conventions:
* Filenames are lists of characters (`Str`); paths are lists of name
  segments, root first (`FsPath`).
* The filesystem is an explicit tree value (`FsTree`).  A directory node
  carries a `present` flag: `false` models a directory that has vanished by
  the time its contents are enumerated, in which case `os.scandir` raises
  `FileNotFoundError`.  Symbolic links carry their own `lstat` metadata and
  their target subtree; every scan in the library passes
  `follow_symlinks=False`, so targets are only ever consulted when the OS
  itself resolves a symlink given as the root path.
* `stat` results are modelled by `Meta` (`st_mtime`, `st_ctime`, `st_size`
  as naturals).  `datetime.fromtimestamp` is modelled as the identity on the
  raw timestamp, and `strftime` is an arbitrary function parameter `strf`
  (the spec treats the date/time facility as an external black box).
* Python's `str.lower` is modelled on ASCII by `Char.toLower`.
* Exceptions become an `Except Err` result; Python generators are consumed
  eagerly (as `get_files` does via `list(...)`), so an exception discards
  all previously yielded items.
-/

namespace GetFiles

/-- Filenames and other strings, as character lists. -/
abbrev Str := List Char

/-- Filesystem paths, as lists of name segments (root first). -/
abbrev FsPath := List Str

/-- Result of `stat(follow_symlinks=False)` on an entry. -/
structure Meta where
  mtime : Nat
  ctime : Nat
  size : Nat
deriving DecidableEq, Repr

/-- A filesystem tree: files and symlinks are leaves with their own `lstat`
metadata; a directory holds its child entries in native enumeration order
together with a `present` flag (`false`: the directory has vanished before
its contents are enumerated, so `os.scandir` on it raises
`FileNotFoundError`). A symlink also records the subtree its target denotes. -/
inductive FsTree where
  | file (name : Str) (meta : Meta) : FsTree
  | dir (name : Str) (meta : Meta) (present : Bool) (entries : List FsTree) : FsTree
  | symlink (name : Str) (meta : Meta) (target : FsTree) : FsTree
deriving Repr

/-- Which timestamp `time_type` requests (`"modified"` or `"created"`). -/
inductive TimeType where
  | created : TimeType
  | modified : TimeType
deriving DecidableEq, Repr

/-- The keyword arguments of `get_files` other than `path` and `extensions`. -/
structure Config where
  subfolders : Bool
  time_type : Option TimeType
  as_date_time : Bool
  str_format : Str
  get_size : Bool
deriving DecidableEq, Repr

/-- The `extensions` argument of `get_files`: `None`, a single string, or a
sequence of strings. -/
inductive ExtArg where
  | nofilter : ExtArg
  | str (s : Str) : ExtArg
  | list (l : List Str) : ExtArg
deriving DecidableEq, Repr

/-- The `datetime` value attached to a produced record: either the raw
structured time (`as_date_time=True`) or the `strftime`-rendered text. -/
inductive DateVal where
  | asDt (t : Nat) : DateVal
  | asStr (s : Str) : DateVal
deriving DecidableEq, Repr

/-- The `info` dictionary built by `process_file`: the `"path"` key is always
present, `"datetime"` and `"size"` only when requested. -/
structure FileInfo where
  path : FsPath
  datetime : Option DateVal
  size : Option Nat
deriving DecidableEq, Repr

/-- One produced item: a bare path, or the `info` record. -/
inductive Item where
  | bare (p : FsPath) : Item
  | record (i : FileInfo) : Item
deriving DecidableEq, Repr

/-- The exceptions the library can raise. -/
inductive Err where
  | permission (p : FsPath) : Err
  | notFound (p : FsPath) : Err
  | notADirectory (p : FsPath) : Err
deriving DecidableEq, Repr

/-- Number of keys of the `info` dictionary (`len(info.keys())`). -/
def keyCount (i : FileInfo) : Nat :=
  1 + (if i.datetime.isSome then 1 else 0) + (if i.size.isSome then 1 else 0)

/-- Python whitespace, as stripped by `str.strip()`. -/
def isPySpace (c : Char) : Bool :=
  c = ' ' || c = '\t' || c = '\n' || c = '\r' || c = '\x0b' || c = '\x0c'

/-- Python `s.strip()`: drop leading and trailing whitespace. -/
def pyStrip (s : Str) : Str :=
  ((s.dropWhile isPySpace).reverse.dropWhile isPySpace).reverse

/-- Python `s.split(",")`. -/
def splitOnComma : Str → List Str
  | [] => [[]]
  | c :: cs =>
    let r := splitOnComma cs
    if c = ',' then [] :: r
    else
      match r with
      | [] => [[c]]
      | h :: t => (c :: h) :: t

/-- Python `"," in s`. -/
def hasComma (s : Str) : Bool := s.any (fun c => c = ',')

/-- Python `s.lower()` (ASCII model). -/
def lowerStr (s : Str) : Str := s.map Char.toLower

/-- Lines 51-53 of `GetFiles.py`: a string argument becomes a one-element
tuple when it has no comma, and is otherwise split on commas with each piece
stripped; `None` stays `None` and a sequence is used as-is. -/
def normalizeExt : ExtArg → Option (List Str)
  | .nofilter => none
  | .str s => some (if hasComma s then (splitOnComma s).map pyStrip else [s])
  | .list l => some l

/-- Lines 99-100 of `GetFiles.py`:
`extensions is None or file.name.lower().endswith(tuple(extensions))`. -/
def extMatch (exts : Option (List Str)) (name : Str) : Bool :=
  match exts with
  | none => true
  | some l => l.any (fun e => e.isSuffixOf (lowerStr name))

/-- The entry's name as reported by `os.scandir` (`file.name`). -/
def entryName : FsTree → Str
  | .file n _ => n
  | .dir n _ _ _ => n
  | .symlink n _ _ => n

/-- The entry's `stat(follow_symlinks=False)` metadata. -/
def entryMeta : FsTree → Meta
  | .file _ m => m
  | .dir _ m _ _ => m
  | .symlink _ m _ => m

/-- Resolution of symlinks performed by the OS when a path is handed directly
to `os.scandir` or `Path.is_dir()` (both follow links on the given path
itself; entries below are always tested with `follow_symlinks=False`). -/
def resolve : FsTree → FsTree
  | .symlink _ _ t => resolve t
  | t => t

/-- The `process_file` function (lines 194-241 of `GetFiles.py`): build the
`info` dictionary with the requested timestamp (structured or
`strftime`-rendered) and size, and return it when it has more than the
`"path"` key, the bare path otherwise. -/
def process_file (strf : Str → Nat → Str) (path : FsPath) (meta : Meta)
    (cfg : Config) : Item :=
  let dt : Option DateVal :=
    match cfg.time_type with
    | none => none
    | some tt =>
      let file_time : Nat :=
        match tt with
        | .modified => meta.mtime
        | .created => meta.ctime
      if cfg.as_date_time then some (DateVal.asDt file_time)
      else some (DateVal.asStr (strf cfg.str_format file_time))
  let sz : Option Nat := if cfg.get_size then some meta.size else none
  let info : FileInfo := ⟨path, dt, sz⟩
  if 1 < keyCount info then Item.record info else Item.bare path

mutual

/-- The body of the `for file in iterator` loop of `get_files_iterator`
(lines 92-105 of `GetFiles.py`), for one entry whose parent directory has
path `path`.  A directory entry with `subfolders` set triggers the recursive
`get_files_iterator` call, whose frame catches any `FileNotFoundError` from
below and re-raises one naming its own path; every other entry (including a
directory when `subfolders` is off, and a symlink even to a directory, since
`is_dir(follow_symlinks=False)` is false for links) goes to the `elif` and is
yielded through `process_file` when the extension filter accepts its name. -/
def goEntry (strf : Str → Nat → Str) (exts : Option (List Str)) (cfg : Config)
    (path : FsPath) : FsTree → Except Err (List Item)
  | .dir name meta present entries =>
    if cfg.subfolders then
      -- recursive call `get_files_iterator(Path(file), ...)`; its
      -- `except FileNotFoundError` re-wraps with the child path
      if present then
        match goEntries strf exts cfg (path ++ [name]) entries with
        | .error (.notFound _) => .error (.notFound (path ++ [name]))
        | r => r
      else .error (.notFound (path ++ [name]))
    else if extMatch exts name then
      .ok [process_file strf (path ++ [name]) meta cfg]
    else .ok []
  | .file name meta =>
    if extMatch exts name then
      .ok [process_file strf (path ++ [name]) meta cfg]
    else .ok []
  | .symlink name meta _ =>
    if extMatch exts name then
      .ok [process_file strf (path ++ [name]) meta cfg]
    else .ok []

/-- The `for` loop of `get_files_iterator` over the entries of one directory,
in native enumeration order; an exception aborts the whole walk and discards
everything already yielded. -/
def goEntries (strf : Str → Nat → Str) (exts : Option (List Str))
    (cfg : Config) (path : FsPath) : List FsTree → Except Err (List Item)
  | [] => .ok []
  | e :: es =>
    match goEntry strf exts cfg path e with
    | .error err => .error err
    | .ok xs =>
      match goEntries strf exts cfg path es with
      | .error err => .error err
      | .ok ys => .ok (xs ++ ys)

end

/-- The `get_files_iterator` function (lines 64-107 of `GetFiles.py`) run to
exhaustion on the directory denoted by `path`.  `os.scandir(path)` resolves a
symlink root, raises `FileNotFoundError` on a missing directory (caught by
this frame's handler and re-raised naming `path`) and `NotADirectoryError` on
a file (not caught: only `FileNotFoundError` is). -/
def get_files_iterator (strf : Str → Nat → Str) (path : FsPath)
    (exts : Option (List Str)) (cfg : Config) (root : FsTree) :
    Except Err (List Item) :=
  match resolve root with
  | .dir _ _ present entries =>
    if present then
      match goEntries strf exts cfg path entries with
      | .error (.notFound _) => .error (.notFound path)
      | r => r
    else .error (.notFound path)
  | _ => .error (.notADirectory path)

/-- The `get_files` function (lines 8-61 of `GetFiles.py`): check
`os.access(path, os.R_OK)` (modelled by the oracle `access`, which is false
in particular for a nonexistent root), normalize the `extensions` argument,
then materialize the iterator. -/
def get_files (strf : Str → Nat → Str) (rootPath : FsPath) (root : FsTree)
    (access : Bool) (extensions : ExtArg) (cfg : Config) :
    Except Err (List Item) :=
  if access then
    get_files_iterator strf rootPath (normalizeExt extensions) cfg root
  else
    .error (.permission rootPath)

/-- The inner `scan_directory` of `get_folder_and_file_count`
(lines 110-136 of `GetFiles.py`), with the `nonlocal num_folders, num_files`
counters made an explicit accumulator threaded in visit order: a directory
entry (no symlink following) bumps the folder count and is recursed into
before the remaining siblings; a file entry bumps the file count; any other
entry (a symlink) is ignored.  `os.scandir` on a vanished directory raises an
uncaught `FileNotFoundError`. -/
def scanCount (path : FsPath) : List FsTree → Nat × Nat → Except Err (Nat × Nat)
  | [], acc => .ok acc
  | .dir name _ present sub :: es, acc =>
    if present then
      match scanCount (path ++ [name]) sub (acc.1 + 1, acc.2) with
      | .error err => .error err
      | .ok acc' => scanCount path es acc'
    else .error (.notFound (path ++ [name]))
  | .file _ _ :: es, acc => scanCount path es (acc.1, acc.2 + 1)
  | .symlink _ _ _ :: es, acc => scanCount path es acc

/-- The `get_folder_and_file_count` function (lines 110-136 of
`GetFiles.py`): scan the root (with `os.scandir` resolving a symlink root,
raising `FileNotFoundError` on a missing directory and `NotADirectoryError`
on a file) and return the folder and file tallies. -/
def get_folder_and_file_count (rootPath : FsPath) (root : FsTree) :
    Except Err (Nat × Nat) :=
  match resolve root with
  | .dir _ _ present entries =>
    if present then scanCount rootPath entries (0, 0)
    else .error (.notFound rootPath)
  | _ => .error (.notADirectory rootPath)

/-- The inner `scan_directory` of `get_folders` (lines 165-191 of
`GetFiles.py`), with the `nonlocal folders` list made an explicit
accumulator: each directory entry (no symlink following) is appended before
its own subtree is scanned, so the collected order is depth-first pre-order
in native enumeration order; files and symlinks are ignored. -/
def scanFolders (path : FsPath) : List FsTree → List FsPath →
    Except Err (List FsPath)
  | [], acc => .ok acc
  | .dir name _ present sub :: es, acc =>
    if present then
      match scanFolders (path ++ [name]) sub (acc ++ [path ++ [name]]) with
      | .error err => .error err
      | .ok acc' => scanFolders path es acc'
    else .error (.notFound (path ++ [name]))
  | .file _ _ :: es, acc => scanFolders path es acc
  | .symlink _ _ _ :: es, acc => scanFolders path es acc

/-- The `get_folders` function (lines 165-191 of `GetFiles.py`):
`Path(path).is_dir()` (which follows symlinks and is false for a missing
path) gates a `NotADirectoryError`; then the root's entries are scanned. -/
def get_folders (rootPath : FsPath) (root : FsTree) :
    Except Err (List FsPath) :=
  match resolve root with
  | .dir _ _ present entries =>
    if present then scanFolders rootPath entries []
    else .error (.notADirectory rootPath)
  | _ => .error (.notADirectory rootPath)

/-- Specification-side count of directories in a forest of entries,
recursively, not following symlinks (a symlink contributes nothing and is
not descended into). -/
def specDirCount : List FsTree → Nat
  | [] => 0
  | .dir _ _ _ sub :: es => 1 + specDirCount sub + specDirCount es
  | .file _ _ :: es => specDirCount es
  | .symlink _ _ _ :: es => specDirCount es

/-- Specification-side count of files in a forest of entries, recursively,
not following symlinks. -/
def specFileCount : List FsTree → Nat
  | [] => 0
  | .dir _ _ _ sub :: es => specFileCount sub + specFileCount es
  | .file _ _ :: es => 1 + specFileCount es
  | .symlink _ _ _ :: es => specFileCount es

/-- Specification-side list of the paths of all directories in a forest of
entries, depth-first pre-order, not following symlinks. -/
def specFolders (path : FsPath) : List FsTree → List FsPath
  | [] => []
  | .dir name _ _ sub :: es =>
    (path ++ [name]) :: (specFolders (path ++ [name]) sub ++ specFolders path es)
  | .file _ _ :: es => specFolders path es
  | .symlink _ _ _ :: es => specFolders path es

/-- Every directory in the forest (reachable without following symlinks) is
present, i.e. no directory vanishes during the walk. -/
def allPresent : List FsTree → Bool
  | [] => true
  | .dir _ _ present sub :: es => present && allPresent sub && allPresent es
  | .file _ _ :: es => allPresent es
  | .symlink _ _ _ :: es => allPresent es

section Helpers

variable (strf : Str → Nat → Str) (exts : Option (List Str)) (cfg : Config)

/-- Walking a concatenation of sibling lists produces the concatenation of
their walks, in order (errors propagate from the leftmost failing block). -/
lemma goEntries_append (path : FsPath) (es₁ es₂ : List FsTree) :
    goEntries strf exts cfg path (es₁ ++ es₂) =
      match goEntries strf exts cfg path es₁ with
      | .error err => .error err
      | .ok xs =>
        match goEntries strf exts cfg path es₂ with
        | .error err => .error err
        | .ok ys => .ok (xs ++ ys) := by
  induction es₁ with
  | nil =>
    simp only [List.nil_append, goEntries]
    cases goEntries strf exts cfg path es₂ with
    | error err => rfl
    | ok ys => simp
  | cons e es ih =>
    simp only [List.cons_append, goEntries, List.append_eq, ih]
    cases goEntry strf exts cfg path e with
    | error err => rfl
    | ok xs =>
      cases goEntries strf exts cfg path es with
      | error err => rfl
      | ok ys =>
        cases goEntries strf exts cfg path es₂ with
        | error err => rfl
        | ok zs => simp

/-- When neither a timestamp nor the size is requested, `process_file`
returns the bare path: the `info` dictionary has only its `"path"` key. -/
lemma process_file_bare (path : FsPath) (meta : Meta)
    (h1 : cfg.time_type = none) (h2 : cfg.get_size = false) :
    process_file strf path meta cfg = Item.bare path := by
  simp [process_file, keyCount, h1, h2]

/-- Every error produced inside the walk loop is a `FileNotFoundError`:
`PermissionError` is only ever raised by the top-level `os.access` check in
`get_files`, and `NotADirectoryError` only by `os.scandir` on a non-directory
root. -/
lemma goEntries_error_notFound :
    ∀ (path : FsPath) (es : List FsTree) (err : Err),
      goEntries strf exts cfg path es = .error err → ∃ p, err = .notFound p := by
  refine fun path es =>
    goEntries.induct strf exts cfg
      (fun path e => ∀ err, goEntry strf exts cfg path e = .error err →
        ∃ p, err = .notFound p)
      (fun path es => ∀ err, goEntries strf exts cfg path es = .error err →
        ∃ p, err = .notFound p)
      ?_ ?_ ?_ ?_ ?_ ?_ ?_ ?_ ?_ ?_ ?_ ?_ ?_ path es
  case _ =>
    intro path name meta entries hsub p hin _ err he
    simp only [goEntry, hsub, if_true, hin] at he
    exact ⟨path ++ [name], by simp only [Except.error.injEq] at he; exact he.symm⟩
  case _ =>
    intro path name meta entries hsub hno ih err he
    simp only [goEntry, hsub, if_true] at he
    rcases hr : goEntries strf exts cfg (path ++ [name]) entries with err' | xs
    · rcases ih err' hr with ⟨p, rfl⟩
      exact absurd hr (hno p)
    · rw [hr] at he
      simp at he
  case _ =>
    intro path name meta present entries hsub hpres err he
    simp only [goEntry, hsub, if_true, if_neg hpres] at he
    exact ⟨path ++ [name], by simp only [Except.error.injEq] at he; exact he.symm⟩
  case _ =>
    intro path name meta present entries hsub hm err he
    simp [goEntry, hsub, hm] at he
  case _ =>
    intro path name meta present entries hsub hm err he
    simp [goEntry, hsub, hm] at he
  case _ =>
    intro path name meta hm err he
    simp [goEntry, hm] at he
  case _ =>
    intro path name meta hm err he
    simp [goEntry, hm] at he
  case _ =>
    intro path name meta target hm err he
    simp [goEntry, hm] at he
  case _ =>
    intro path name meta target hm err he
    simp [goEntry, hm] at he
  case _ =>
    intro path err he
    simp [goEntries] at he
  case _ =>
    intro path e es err' hee ih err he
    simp only [goEntries, hee, Except.error.injEq] at he
    subst he
    exact ih err' hee
  case _ =>
    intro path e es ys hee err' het ih1 ih2 err he
    simp only [goEntries, hee, het, Except.error.injEq] at he
    subst he
    exact ih2 err' het
  case _ =>
    intro path e es ys hee zs het ih1 ih2 err he
    simp [goEntries, hee, het] at he

/-- When neither a timestamp nor the size is requested, every item the walk
yields is a bare path. -/
lemma goEntries_ok_bare (h1 : cfg.time_type = none) (h2 : cfg.get_size = false) :
    ∀ (path : FsPath) (es : List FsTree) (l : List Item),
      goEntries strf exts cfg path es = .ok l →
      ∀ x ∈ l, ∃ p, x = Item.bare p := by
  refine fun path es =>
    goEntries.induct strf exts cfg
      (fun path e => ∀ l, goEntry strf exts cfg path e = .ok l →
        ∀ x ∈ l, ∃ p, x = Item.bare p)
      (fun path es => ∀ l, goEntries strf exts cfg path es = .ok l →
        ∀ x ∈ l, ∃ p, x = Item.bare p)
      ?_ ?_ ?_ ?_ ?_ ?_ ?_ ?_ ?_ ?_ ?_ ?_ ?_ path es
  case _ =>
    intro path name meta entries hsub p hin _ l hok
    simp [goEntry, hsub, hin] at hok
  case _ =>
    intro path name meta entries hsub hno ih l hok
    simp only [goEntry, hsub, if_true] at hok
    rcases hr : goEntries strf exts cfg (path ++ [name]) entries with err' | xs
    · rcases goEntries_error_notFound strf exts cfg _ _ _ hr with ⟨p, rfl⟩
      exact absurd hr (hno p)
    · rw [hr] at hok
      simp only [Except.ok.injEq] at hok
      subst hok
      exact ih xs hr
  case _ =>
    intro path name meta present entries hsub hpres l hok
    simp [goEntry, hsub, if_neg hpres] at hok
  case _ =>
    intro path name meta present entries hsub hm l hok
    simp only [goEntry, if_neg hsub, hm, if_true, Except.ok.injEq] at hok
    subst hok
    intro x hx
    simp only [List.mem_singleton] at hx
    subst hx
    exact ⟨path ++ [name], process_file_bare strf cfg _ _ h1 h2⟩
  case _ =>
    intro path name meta present entries hsub hm l hok
    simp [goEntry, hsub, hm] at hok
    subst hok
    simp
  case _ =>
    intro path name meta hm l hok
    simp only [goEntry, hm, if_true, Except.ok.injEq] at hok
    subst hok
    intro x hx
    simp only [List.mem_singleton] at hx
    subst hx
    exact ⟨path ++ [name], process_file_bare strf cfg _ _ h1 h2⟩
  case _ =>
    intro path name meta hm l hok
    simp [goEntry, hm] at hok
    subst hok
    simp
  case _ =>
    intro path name meta target hm l hok
    simp only [goEntry, hm, if_true, Except.ok.injEq] at hok
    subst hok
    intro x hx
    simp only [List.mem_singleton] at hx
    subst hx
    exact ⟨path ++ [name], process_file_bare strf cfg _ _ h1 h2⟩
  case _ =>
    intro path name meta target hm l hok
    simp [goEntry, hm] at hok
    subst hok
    simp
  case _ =>
    intro path l hok
    simp only [goEntries, Except.ok.injEq] at hok
    subst hok
    intro x hx
    simp at hx
  case _ =>
    intro path e es err hee ih l hok
    simp [goEntries, hee] at hok
  case _ =>
    intro path e es ys hee err het ih1 ih2 l hok
    simp [goEntries, hee, het] at hok
  case _ =>
    intro path e es xs hee ys het ih1 ih2 l hok
    simp only [goEntries, hee, het, Except.ok.injEq] at hok
    subst hok
    intro x hx
    rcases List.mem_append.mp hx with hx | hx
    · exact ih1 xs hee x hx
    · exact ih2 ys het x hx

end Helpers

/-- The accumulator-threaded `scan_directory` of `get_folder_and_file_count`
computes the structural directory and file counts, offset by the incoming
accumulator, whenever no visited directory has vanished. -/
lemma scanCount_spec :
    ∀ (path : FsPath) (es : List FsTree) (acc : Nat × Nat),
      allPresent es = true →
      scanCount path es acc =
        .ok (acc.1 + specDirCount es, acc.2 + specFileCount es) := by
  refine fun path es acc =>
    scanCount.induct
      (fun path es acc => allPresent es = true →
        scanCount path es acc =
          .ok (acc.1 + specDirCount es, acc.2 + specFileCount es))
      ?_ ?_ ?_ ?_ ?_ ?_ path es acc
  case _ =>
    intro path acc _
    simp [scanCount, specDirCount, specFileCount]
  case _ =>
    intro path name meta sub es acc err herr ih
    intro h
    simp only [allPresent, Bool.true_and, Bool.and_eq_true] at h
    rw [ih h.1] at herr
    simp at herr
  case _ =>
    intro path name meta sub es acc acc' hok ih1 ih2
    intro h
    simp only [allPresent, Bool.true_and, Bool.and_eq_true] at h
    rw [ih1 h.1] at hok
    simp only [Except.ok.injEq] at hok
    subst hok
    simp only [scanCount, if_true, ih1 h.1]
    rw [ih2 h.2]
    simp only [Except.ok.injEq, Prod.mk.injEq, specDirCount, specFileCount]
    omega
  case _ =>
    intro path name meta present sub es acc hpres h
    simp only [allPresent, Bool.and_eq_true] at h
    exact absurd h.1.1 hpres
  case _ =>
    intro path name meta es acc ih h
    simp only [allPresent] at h
    simp only [scanCount, specDirCount, specFileCount]
    rw [ih h]
    dsimp only
    simp only [Except.ok.injEq, Prod.mk.injEq]
    exact ⟨trivial, by omega⟩
  case _ =>
    intro path name meta target es acc ih h
    simp only [allPresent] at h
    simp only [scanCount, specDirCount, specFileCount]
    exact ih h

/-- The accumulator-threaded `scan_directory` of `get_folders` collects the
structural depth-first pre-order directory list, appended to the incoming
accumulator, whenever no visited directory has vanished. -/
lemma scanFolders_spec :
    ∀ (path : FsPath) (es : List FsTree) (acc : List FsPath),
      allPresent es = true →
      scanFolders path es acc = .ok (acc ++ specFolders path es) := by
  refine fun path es acc =>
    scanFolders.induct
      (fun path es acc => allPresent es = true →
        scanFolders path es acc = .ok (acc ++ specFolders path es))
      ?_ ?_ ?_ ?_ ?_ ?_ path es acc
  case _ =>
    intro path acc _
    simp [scanFolders, specFolders]
  case _ =>
    intro path name meta sub es acc err herr ih
    intro h
    simp only [allPresent, Bool.true_and, Bool.and_eq_true] at h
    rw [ih h.1] at herr
    simp at herr
  case _ =>
    intro path name meta sub es acc acc' hok ih1 ih2
    intro h
    simp only [allPresent, Bool.true_and, Bool.and_eq_true] at h
    rw [ih1 h.1] at hok
    simp only [Except.ok.injEq] at hok
    subst hok
    simp only [scanFolders, if_true, ih1 h.1]
    rw [ih2 h.2]
    simp [specFolders]
  case _ =>
    intro path name meta present sub es acc hpres h
    simp only [allPresent, Bool.and_eq_true] at h
    exact absurd h.1.1 hpres
  case _ =>
    intro path name meta es acc ih h
    simp only [allPresent] at h
    simp only [scanFolders, specFolders]
    exact ih h
  case _ =>
    intro path name meta target es acc ih h
    simp only [allPresent] at h
    simp only [scanFolders, specFolders]
    exact ih h

/-- C1: evaluation of the code at the failing input.  With recursion disabled
(`subfolders=False`) and no extension filter, walking a readable root that
contains one subdirectory `s` (itself holding a file) emits an item for the
subdirectory `s` itself: the directory entry falls through to the `elif`
branch and is yielded, contradicting the claim that with recursion disabled
every directory entry is skipped entirely.  (The descent into `s` indeed does
not happen: the file below `s` is absent from the output.) -/
theorem c1_dir_emitted_when_subfolders_off :
    get_files (fun _ _ => []) [['r']]
      (.dir ['r'] ⟨0, 0, 0⟩ true
        [.dir ['s'] ⟨0, 0, 0⟩ true [.file ['a'] ⟨0, 0, 0⟩]])
      true .nofilter ⟨false, none, false, [], false⟩
    = .ok [Item.bare [['r'], ['s']]] := rfl

/-- C2 counterexample: a file named `file.txt` does NOT match a filter of
`.TXT` — the code lowercases only the filename, never the configured
suffixes, so the claimed symmetric direction of case-insensitivity fails and
the walk returns no items. -/
theorem c2_uppercase_filter_counterexample :
    get_files (fun _ _ => []) [['r']]
      (.dir ['r'] ⟨0, 0, 0⟩ true [.file "file.txt".toList ⟨0, 0, 0⟩])
      true (.list [".TXT".toList]) ⟨true, none, false, [], false⟩
    = .ok [] := rfl

/-- C2 amended: a file matches iff the lowercased filename ends with one of
the configured suffixes taken literally (not lowercased); in particular
`FILE.TXT` does match a filter of `.txt` (second conjunct), but the symmetric
direction fails. -/
theorem c2_match_lowercases_filename_only :
    (∀ (strf : Str → Nat → Str) (rootPath : FsPath) (rn : Str) (rm : Meta)
       (name : Str) (meta : Meta) (exts : List Str) (cfg : Config),
       get_files strf rootPath (.dir rn rm true [.file name meta]) true
         (.list exts) cfg
       = .ok (if exts.any (fun e => e.isSuffixOf (lowerStr name)) then
                [process_file strf (rootPath ++ [name]) meta cfg]
              else []))
    ∧ get_files (fun _ _ => []) [['r']]
        (.dir ['r'] ⟨0, 0, 0⟩ true [.file "FILE.TXT".toList ⟨0, 0, 0⟩])
        true (.list [".txt".toList]) ⟨true, none, false, [], false⟩
      = .ok [Item.bare [['r'], "FILE.TXT".toList]] := by
  constructor
  · intro strf rootPath rn rm name meta exts cfg
    simp only [get_files, if_true, get_files_iterator, resolve, normalizeExt,
      goEntries, goEntry, extMatch]
    by_cases h : (exts.any fun e => e.isSuffixOf (lowerStr name)) = true
    · simp [h]
    · simp only [Bool.not_eq_true] at h
      simp [h]
  · rfl

/-- C3 counterexample: when a nested directory `r/g` has vanished, the error
escaping the traversal is a `FileNotFoundError` naming the root `r`, not the
vanished directory `r/g`: each recursion frame catches the error from below
and re-raises one naming its own path. -/
theorem c3_error_names_root_counterexample :
    get_files_iterator (fun _ _ => []) [['r']] none
      ⟨true, none, false, [], false⟩
      (.dir ['r'] ⟨0, 0, 0⟩ true [.dir ['g'] ⟨0, 0, 0⟩ false []])
    = .error (.notFound [['r']])
    ∧ ([['r']] : FsPath) ≠ [['r'], ['g']] := ⟨rfl, by decide⟩

/-- C3 amended: a missing directory does make the traversal fail with
`FileNotFoundError`, but any such error escaping `get_files_iterator` names
the path of the top-level call (the root), because every enclosing frame
catches and re-wraps it; a missing root in particular yields the error naming
the root path. -/
theorem c3_notfound_carries_toplevel_path :
    ∀ (strf : Str → Nat → Str) (rootPath : FsPath) (exts : Option (List Str))
      (cfg : Config) (root : FsTree),
      (∀ p, get_files_iterator strf rootPath exts cfg root
          = .error (.notFound p) → p = rootPath)
      ∧ (∀ n m es, resolve root = .dir n m false es →
          get_files_iterator strf rootPath exts cfg root
            = .error (.notFound rootPath)) := by
  intro strf rootPath exts cfg root
  constructor
  · intro p hp
    unfold get_files_iterator at hp
    rcases hres : resolve root with _ | ⟨n, m, present, es⟩ | _
    · rw [hres] at hp
      simp at hp
    · rw [hres] at hp
      cases present with
      | false =>
        simp only [Bool.false_eq_true, if_false, Except.error.injEq,
          Err.notFound.injEq] at hp
        exact hp.symm
      | true =>
        simp only [if_true] at hp
        rcases hg : goEntries strf exts cfg rootPath es with err | xs
        · rcases goEntries_error_notFound strf exts cfg _ _ _ hg with ⟨q, rfl⟩
          rw [hg] at hp
          simp only [Except.error.injEq, Err.notFound.injEq] at hp
          exact hp.symm
        · rw [hg] at hp
          simp at hp
    · rw [hres] at hp
      simp at hp
  · intro n m es hres
    unfold get_files_iterator
    rw [hres]
    simp

/-- C3 witness: the amended theorem applied to a concrete missing root. -/
theorem c3_notfound_witness :
    get_files_iterator (fun _ _ => []) [['r']] none
      ⟨true, none, false, [], false⟩ (.dir ['r'] ⟨0, 0, 0⟩ false [])
    = .error (.notFound [['r']]) :=
  (c3_notfound_carries_toplevel_path (fun _ _ => []) [['r']] none
    ⟨true, none, false, [], false⟩ (.dir ['r'] ⟨0, 0, 0⟩ false [])).2
    ['r'] ⟨0, 0, 0⟩ [] rfl

/-- C4 counterexample: calling `get_files` with every argument at its default
(`subfolders=True`, `time_type="modified"`, `as_date_time=False`, the default
format string, `get_size=False`, no filter) yields a record with a `datetime`
field, not a bare path, because the default `time_type` requests a
timestamp. -/
theorem c4_defaults_yield_records :
    get_files (fun _ _ => ['t']) [['r']]
      (.dir ['r'] ⟨5, 6, 7⟩ true [.file ['a'] ⟨5, 6, 7⟩])
      true .nofilter
      ⟨true, some .modified, false, "%Y-%m-%d %H:%M:%S".toList, false⟩
    = .ok [Item.record ⟨[['r'], ['a']], some (.asStr ['t']), none⟩] := rfl

/-- C4 amended: whenever `time_type=None` and `get_size=False` are passed
explicitly, every produced item is indeed a bare path; the claim's "in
particular" fails only because the default `time_type` is `"modified"`, not
`None`. -/
theorem c4_bare_paths_when_no_metadata :
    ∀ (strf : Str → Nat → Str) (rootPath : FsPath) (root : FsTree)
      (access : Bool) (extensions : ExtArg) (cfg : Config) (l : List Item),
      cfg.time_type = none → cfg.get_size = false →
      get_files strf rootPath root access extensions cfg = .ok l →
      ∀ x ∈ l, ∃ p, x = Item.bare p := by
  intro strf rootPath root access extensions cfg l h1 h2 hok
  cases access with
  | false => simp [get_files] at hok
  | true =>
    simp only [get_files, if_true] at hok
    unfold get_files_iterator at hok
    rcases hres : resolve root with _ | ⟨n, m, present, es⟩ | _
    · rw [hres] at hok
      simp at hok
    · rw [hres] at hok
      cases present with
      | false => simp at hok
      | true =>
        simp only [if_true] at hok
        rcases hg : goEntries strf (normalizeExt extensions) cfg rootPath es
          with err | xs
        · rcases goEntries_error_notFound strf (normalizeExt extensions) cfg
            _ _ _ hg with ⟨q, rfl⟩
          rw [hg] at hok
          simp at hok
        · rw [hg] at hok
          simp only [Except.ok.injEq] at hok
          subst hok
          exact goEntries_ok_bare strf (normalizeExt extensions) cfg h1 h2
            rootPath es xs hg
    · rw [hres] at hok
      simp at hok

/-- C4 witness: the amended theorem applied to a concrete one-file tree with
`time_type=None` and `get_size=False`. -/
theorem c4_bare_paths_witness :
    ∃ p, Item.bare [['r'], ['a']] = Item.bare p :=
  c4_bare_paths_when_no_metadata (fun _ _ => []) [['r']]
    (.dir ['r'] ⟨0, 0, 0⟩ true [.file ['a'] ⟨0, 0, 0⟩]) true .nofilter
    ⟨true, none, false, [], false⟩ [Item.bare [['r'], ['a']]] rfl rfl rfl
    (Item.bare [['r'], ['a']]) (by simp)

/-- C5 counterexample: in a root whose native enumeration order lists the
subdirectory `s` (holding `a.txt`) before the direct file `b.txt`, the walk
emits the subdirectory's file first — so the directory's own matched files
are NOT always emitted before entries produced from its subdirectories. -/
theorem c5_subdir_output_precedes_sibling_file :
    get_files (fun _ _ => []) [['r']]
      (.dir ['r'] ⟨0, 0, 0⟩ true
        [.dir ['s'] ⟨0, 0, 0⟩ true [.file "a.txt".toList ⟨0, 0, 0⟩],
         .file "b.txt".toList ⟨0, 0, 0⟩])
      true .nofilter ⟨true, none, false, [], false⟩
    = .ok [Item.bare [['r'], ['s'], "a.txt".toList],
           Item.bare [['r'], "b.txt".toList]] := rfl

/-- C5 amended: the traversal is depth-first in native enumeration order:
the walk of a directory listing split as `es₁ ++ es₂` is the walk of `es₁`
followed by the walk of `es₂` (each entry's whole subtree output is emitted
contiguously at the entry's position, with errors propagating from the
leftmost failing block); files directly inside a directory have no priority
over earlier subdirectory entries. -/
theorem c5_walk_concatenates_in_native_order :
    ∀ (strf : Str → Nat → Str) (exts : Option (List Str)) (cfg : Config)
      (path : FsPath) (es₁ es₂ : List FsTree),
      goEntries strf exts cfg path (es₁ ++ es₂) =
        match goEntries strf exts cfg path es₁ with
        | .error err => .error err
        | .ok xs =>
          match goEntries strf exts cfg path es₂ with
          | .error err => .error err
          | .ok ys => .ok (xs ++ ys) :=
  fun strf exts cfg path es₁ es₂ => goEntries_append strf exts cfg path es₁ es₂

/-- C6: providing the comma-separated string `".txt, .log"` is equivalent to
providing the list `[".txt", ".log"]` for every tree and configuration; in
general a comma-free string is the one-element suffix set, and a
comma-containing string is split on commas with each piece stripped. -/
theorem c6_comma_string_equals_list :
    (∀ (strf : Str → Nat → Str) (rootPath : FsPath) (root : FsTree)
       (access : Bool) (cfg : Config),
       get_files strf rootPath root access (.str ".txt, .log".toList) cfg
         = get_files strf rootPath root access
             (.list [".txt".toList, ".log".toList]) cfg)
    ∧ (∀ (s : Str), hasComma s = false →
       ∀ (strf : Str → Nat → Str) (rootPath : FsPath) (root : FsTree)
         (access : Bool) (cfg : Config),
         get_files strf rootPath root access (.str s) cfg
           = get_files strf rootPath root access (.list [s]) cfg)
    ∧ (∀ (s : Str), hasComma s = true →
       ∀ (strf : Str → Nat → Str) (rootPath : FsPath) (root : FsTree)
         (access : Bool) (cfg : Config),
         get_files strf rootPath root access (.str s) cfg
           = get_files strf rootPath root access
               (.list ((splitOnComma s).map pyStrip)) cfg) := by
  refine ⟨?_, ?_, ?_⟩
  · intro strf rootPath root access cfg
    have h : normalizeExt (.str ".txt, .log".toList)
        = normalizeExt (.list [".txt".toList, ".log".toList]) := by decide
    unfold get_files
    rw [h]
  · intro s hs strf rootPath root access cfg
    have h : normalizeExt (.str s) = normalizeExt (.list [s]) := by
      simp [normalizeExt, hs]
    unfold get_files
    rw [h]
  · intro s hs strf rootPath root access cfg
    have h : normalizeExt (.str s)
        = normalizeExt (.list ((splitOnComma s).map pyStrip)) := by
      simp [normalizeExt, hs]
    unfold get_files
    rw [h]

/-- C6 witness: the comma-free conjunct applied to the concrete string
`.md`. -/
theorem c6_comma_witness :
    get_files (fun _ _ => []) [['r']] (.dir ['r'] ⟨0, 0, 0⟩ true []) true
      (.str ['.', 'm', 'd']) ⟨true, none, false, [], false⟩
    = get_files (fun _ _ => []) [['r']] (.dir ['r'] ⟨0, 0, 0⟩ true []) true
      (.list [['.', 'm', 'd']]) ⟨true, none, false, [], false⟩ :=
  c6_comma_string_equals_list.2.1 ['.', 'm', 'd'] rfl (fun _ _ => [])
    [['r']] (.dir ['r'] ⟨0, 0, 0⟩ true []) true ⟨true, none, false, [], false⟩

/-- C7: when the root fails the `os.access` readability check, `get_files`
raises `PermissionError` naming the root, whatever the tree looks like (so
before any enumeration of it); and when the check passes, no
`PermissionError` can be raised by the traversal. -/
theorem c7_permission_check_before_traversal :
    ∀ (strf : Str → Nat → Str) (rootPath : FsPath) (root : FsTree)
      (extensions : ExtArg) (cfg : Config),
      (get_files strf rootPath root false extensions cfg
        = .error (.permission rootPath))
      ∧ (∀ p, get_files strf rootPath root true extensions cfg
          ≠ .error (.permission p)) := by
  intro strf rootPath root extensions cfg
  refine ⟨rfl, ?_⟩
  intro p hp
  simp only [get_files, if_true] at hp
  unfold get_files_iterator at hp
  rcases hres : resolve root with _ | ⟨n, m, present, es⟩ | _
  · rw [hres] at hp
    simp at hp
  · rw [hres] at hp
    cases present with
    | false => simp at hp
    | true =>
      simp only [if_true] at hp
      rcases hg : goEntries strf (normalizeExt extensions) cfg rootPath es
        with err | xs
      · rcases goEntries_error_notFound strf (normalizeExt extensions) cfg
          _ _ _ hg with ⟨q, rfl⟩
        rw [hg] at hp
        simp at hp
      · rw [hg] at hp
        simp at hp
  · rw [hres] at hp
    simp at hp

/-- C7 witness: the unreadable-root conjunct at a concrete root. -/
theorem c7_permission_witness :
    get_files (fun _ _ => []) [['r']] (.dir ['r'] ⟨0, 0, 0⟩ true []) false
      .nofilter ⟨true, none, false, [], false⟩
    = .error (.permission [['r']]) :=
  (c7_permission_check_before_traversal (fun _ _ => []) [['r']]
    (.dir ['r'] ⟨0, 0, 0⟩ true []) .nofilter
    ⟨true, none, false, [], false⟩).1

/-- C8: on a fully present tree, `get_folder_and_file_count` returns exactly
the pair (number of directories, number of files) strictly below the root,
counted recursively without following symbolic links and without counting
the root itself. -/
theorem c8_count_returns_dirs_and_files :
    ∀ (rootPath : FsPath) (name : Str) (meta : Meta) (entries : List FsTree),
      allPresent entries = true →
      get_folder_and_file_count rootPath (.dir name meta true entries)
        = .ok (specDirCount entries, specFileCount entries) := by
  intro rootPath name meta entries h
  simp only [get_folder_and_file_count, resolve, if_true]
  rw [scanCount_spec rootPath entries (0, 0) h]
  simp

/-- C8 witness: the theorem applied to a concrete tree with one
subdirectory and two files (one nested). -/
theorem c8_count_witness :
    get_folder_and_file_count [['r']]
      (.dir ['r'] ⟨0, 0, 0⟩ true
        [.file ['a'] ⟨0, 0, 0⟩,
         .dir ['d'] ⟨0, 0, 0⟩ true [.file ['b'] ⟨0, 0, 0⟩]])
    = .ok (1, 2) := by
  rw [c8_count_returns_dirs_and_files [['r']] ['r'] ⟨0, 0, 0⟩
    [.file ['a'] ⟨0, 0, 0⟩,
     .dir ['d'] ⟨0, 0, 0⟩ true [.file ['b'] ⟨0, 0, 0⟩]]
    (by simp [allPresent])]
  simp [specDirCount, specFileCount]

/-- C9: on a root that is a fully present directory, `get_folders` returns
exactly the directories strictly under the root (depth-first pre-order,
root itself and files excluded); on a root that is a file it raises
`NotADirectoryError`. -/
theorem c9_get_folders_subdirs_or_rejects_file :
    ∀ (rootPath : FsPath) (root : FsTree),
      (∀ name meta entries, root = .dir name meta true entries →
        allPresent entries = true →
        get_folders rootPath root = .ok (specFolders rootPath entries))
      ∧ (∀ name meta, root = .file name meta →
        get_folders rootPath root = .error (.notADirectory rootPath)) := by
  intro rootPath root
  constructor
  · rintro name meta entries rfl h
    simp only [get_folders, resolve, if_true]
    rw [scanFolders_spec rootPath entries [] h]
    simp
  · rintro name meta rfl
    rfl

/-- C9 witness: the directory conjunct at a concrete tree (and the resulting
list evaluated). -/
theorem c9_get_folders_witness :
    get_folders [['r']]
      (.dir ['r'] ⟨0, 0, 0⟩ true
        [.dir ['d'] ⟨0, 0, 0⟩ true [], .file ['a'] ⟨0, 0, 0⟩])
    = .ok [[['r'], ['d']]] := by
  rw [(c9_get_folders_subdirs_or_rejects_file [['r']]
    (.dir ['r'] ⟨0, 0, 0⟩ true
      [.dir ['d'] ⟨0, 0, 0⟩ true [], .file ['a'] ⟨0, 0, 0⟩])).1
    ['r'] ⟨0, 0, 0⟩ _ rfl (by simp [allPresent])]
  simp [specFolders]

/-- C10: a symbolic-link entry is never recursed through — the walk's output
does not depend on the link's target at all (first conjunct, for any
configuration, in particular `subfolders=True`) — and the entry itself is
tested against the extension filter like an ordinary file and, on a match,
yielded with the link's own (`follow_symlinks=False`) metadata (second
conjunct). -/
theorem c10_symlink_not_followed_treated_as_file :
    ∀ (strf : Str → Nat → Str) (rootPath : FsPath) (exts : Option (List Str))
      (cfg : Config) (rn : Str) (rm : Meta) (es₁ es₂ : List FsTree)
      (name : Str) (meta : Meta) (t₁ t₂ : FsTree),
      (get_files_iterator strf rootPath exts cfg
          (.dir rn rm true (es₁ ++ .symlink name meta t₁ :: es₂))
        = get_files_iterator strf rootPath exts cfg
            (.dir rn rm true (es₁ ++ .symlink name meta t₂ :: es₂)))
      ∧ (goEntry strf exts cfg rootPath (.symlink name meta t₁)
          = .ok (if extMatch exts name then
                   [process_file strf (rootPath ++ [name]) meta cfg]
                 else [])) := by
  intro strf rootPath exts cfg rn rm es₁ es₂ name meta t₁ t₂
  constructor
  · have hsym : goEntries strf exts cfg rootPath (.symlink name meta t₁ :: es₂)
        = goEntries strf exts cfg rootPath (.symlink name meta t₂ :: es₂) := by
      simp only [goEntries, goEntry]
    have hmain : goEntries strf exts cfg rootPath
          (es₁ ++ .symlink name meta t₁ :: es₂)
        = goEntries strf exts cfg rootPath
            (es₁ ++ .symlink name meta t₂ :: es₂) := by
      rw [goEntries_append, goEntries_append, hsym]
    simp only [get_files_iterator, resolve, hmain]
  · simp only [goEntry]
    cases h : extMatch exts name <;> simp [h]

end GetFiles
